import Mathlib

/-!
# Verification of `terraform-profile` (src/main.rs)

A shallow embedding of the profile-management logic of the `terraform-profile`
CLI.  The program keeps a registry directory of files `<name>.tfrc.json`,
builds an in-memory map from profile name to file path (`get_profiles`), and
manages a single credentials path `~/.terraform.d/credentials.tfrc.json` that
is normally a symbolic link into the registry (`switch_profile`,
`import_profile`, `show_profile_status`).

Modelling choices:
* Paths are plain strings; distinct files have distinct path strings.
* The filesystem state `FS` records the node at the fixed credentials path
  (absent, a plain file, or a symlink with its target), plus the set of
  paths at which ordinary files exist elsewhere (registry files, stray
  targets).  Targets of symlinks are assumed to be ordinary files or absent,
  never further symlinks, matching the states the tool itself creates.
* `Path.exists()` in Rust traverses symlinks (a dangling symlink does not
  "exist"), while `Path.is_symlink()` does not; both are modelled exactly.
* `std::os::unix::fs::symlink` fails with `EEXIST` when any node (even a
  dangling symlink) occupies the destination; `std::fs::rename` fails when
  the source is absent and replaces an existing destination file.
* A command's observable outcome is `CmdOut`: the resulting filesystem
  state, the lines printed to stdout and stderr, and the exit behaviour
  (`success`, an explicit `std::process::exit(1)`, or an `Err` propagated to
  `main`, written `ioError`).
-/

/-- Filesystem paths, as plain strings. -/
abbrev FsPath := String

/-- The node found at the fixed credentials path, inspected without
following symlinks (as `symlink_metadata` / `is_symlink` do). -/
inductive FileNode where
  /-- Nothing exists at the path. -/
  | absent : FileNode
  /-- An ordinary (non-symlink) file occupies the path. -/
  | plainFile : FileNode
  /-- A symbolic link with the given target occupies the path. -/
  | symlink (target : FsPath) : FileNode
deriving DecidableEq

/-- The filesystem state the commands operate on: the node at the
credentials path, and the set of other paths at which ordinary files
exist (used to resolve `Path::exists()` through a symlink). -/
structure FS where
  /-- Node at `~/.terraform.d/credentials.tfrc.json`. -/
  cred : FileNode
  /-- Paths (other than the credentials path) at which a regular file exists. -/
  others : List FsPath
deriving DecidableEq

/-- Whether an ordinary file exists at path `p` (other than the credentials
path). -/
def FS.fileAt (fs : FS) (p : FsPath) : Bool :=
  fs.others.contains p

/-- Rust `Path::exists()` on the credentials path: traverses symlinks, so a
dangling symlink reports `false`. -/
def FS.credExists (fs : FS) : Bool :=
  match fs.cred with
  | .absent => false
  | .plainFile => true
  | .symlink t => fs.fileAt t

/-- Rust `Path::is_symlink()` on the credentials path: does not traverse. -/
def FS.credIsSymlink (fs : FS) : Bool :=
  match fs.cred with
  | .symlink _ => true
  | _ => false

/-- Exit behaviour of one command invocation. -/
inductive ExitCode where
  /-- The handler returned `Ok(())` and printed its success message. -/
  | success : ExitCode
  /-- The handler called `std::process::exit(1)` after a diagnostic. -/
  | exit1 : ExitCode
  /-- A filesystem error was propagated as `Err` to `main` (non-zero exit). -/
  | ioError : ExitCode
deriving DecidableEq

/-- Observable outcome of a command: final filesystem state, stdout lines,
stderr lines, exit behaviour. -/
structure CmdOut where
  /-- Filesystem state after the command. -/
  fs : FS
  /-- Lines printed to standard output. -/
  stdout : List String
  /-- Lines printed to the error stream. -/
  stderr : List String
  /-- Exit behaviour. -/
  exit : ExitCode
deriving DecidableEq

/-- The in-memory registry mapping (`HashMap<String, PathBuf>` in the code),
modelled as an association list: keys are profile names, values paths. -/
abbrev Registry := List (String × FsPath)

/-- `HashMap::get`: look the name up in the registry (first matching key;
keys of a `HashMap` are unique). -/
def regGet : Registry → String → Option FsPath
  | [], _ => none
  | (k, v) :: rest, name => if k = name then some v else regGet rest name

/-- `get_profile_name_for_path` from src/main.rs: scan the registry entries
and return the first key whose value equals `path`. -/
def get_profile_name_for_path (path : FsPath) : Registry → Option String
  | [] => none
  | (key, value) :: rest =>
      if value = path then some key else get_profile_name_for_path path rest

/-- Rust `str::split_once(pat)` on lists of characters: split around the
FIRST occurrence of `pat`, returning the parts before and after, or `none`
when `pat` does not occur. -/
def splitOnceList (pat : List Char) : List Char → Option (List Char × List Char)
  | [] => if pat = [] then some ([], []) else none
  | c :: rest =>
      if pat.isPrefixOf (c :: rest) then some ([], (c :: rest).drop pat.length)
      else (splitOnceList pat rest).map fun pr => (c :: pr.1, pr.2)

/-- Rust `str::split_once(pat)` on strings. -/
def splitOnceStr (s pat : String) : Option (String × String) :=
  match splitOnceList pat.toList s.toList with
  | none => none
  | some (pre, post) => some (pre.asString, post.asString)

/-- The fixed registry-file pattern split on by `get_profiles`. -/
def tfrcSuffix : String := ".tfrc.json"

/-- One entry of the registry directory listing, as `read_dir` yields it:
its file name (`none` models an `OsString` that is not valid UTF-8) and its
full path. -/
structure DirEntry where
  /-- `file_name().to_str()`: `none` when the name cannot be decoded. -/
  file_name : Option String
  /-- `path()`: the full path of the entry. -/
  path : FsPath
deriving DecidableEq

/-- `HashMap::insert`: replace the value under an existing key, otherwise
add the pair. -/
def insertEntry (m : Registry) (k : String) (v : FsPath) : Registry :=
  if k ∈ m.map Prod.fst then
    m.map fun kv => if kv.1 = k then (k, v) else kv
  else m ++ [(k, v)]

/-- The loop body of `get_profiles`, folding the directory listing into the
map.  A `none` listing element models an `Err` entry from `read_dir`,
skipped by the `if let Ok(file) = file` in the source. -/
def get_profiles_go : List (Option DirEntry) → Registry →
    Except String Registry
  | [], acc => .ok acc
  | none :: rest, acc => get_profiles_go rest acc
  | some e :: rest, acc =>
      match e.file_name with
      | none => .error "Couldn\'t convert OsString to &str"
      | some s =>
          match splitOnceStr s tfrcSuffix with
          | none => .error "Couldn\'t split file name"
          | some (pre, _) => get_profiles_go rest (insertEntry acc pre e.path)

/-- `get_profiles` from src/main.rs: build the registry mapping from the
directory listing.  Any readable entry whose name is undecodable or lacks
the `.tfrc.json` substring turns the whole result into an `Err` (via the
`.context(...)?` chain in the source). -/
def get_profiles (dir : List (Option DirEntry)) : Except String Registry :=
  get_profiles_go dir []

/-- `initialize_folder` from src/main.rs, on the existence bit of the
project directory: returns (directory exists afterwards, whether
`create_dir` was invoked). -/
def initialize_folder (dirExists : Bool) : Bool × Bool :=
  if dirExists then (dirExists, false) else (true, true)

/-- `symlink_credentials` from src/main.rs: create a symlink at the
credentials path pointing at `profile_path`.  `symlink(2)` fails with
`EEXIST` when any node — even a dangling symlink — already occupies the
path; `none` models that `Err`. -/
def symlink_credentials (fs : FS) (profile_path : FsPath) : Option FS :=
  match fs.cred with
  | .absent => some { fs with cred := .symlink profile_path }
  | _ => none

/-- `std::fs::remove_file` on the credentials path: fails when nothing is
there, otherwise removes the node (a symlink is removed, not followed). -/
def remove_file_cred (fs : FS) : Option FS :=
  match fs.cred with
  | .absent => none
  | _ => some { fs with cred := .absent }

/-- `switch_profile` from src/main.rs. -/
def switch_profile (fs : FS) (profiles : Registry) (name : String) : CmdOut :=
  match regGet profiles name with
  | none =>
      { fs := fs, stdout := [],
        stderr := ["Couldn\'t find the profile to switch with."],
        exit := .exit1 }
  | some profile_path =>
      if fs.credExists then
        if fs.credIsSymlink then
          match remove_file_cred fs with
          | none => { fs := fs, stdout := [], stderr := [], exit := .ioError }
          | some fs1 =>
              match symlink_credentials fs1 profile_path with
              | none =>
                  { fs := fs1, stdout := [], stderr := [], exit := .ioError }
              | some fs2 =>
                  { fs := fs2,
                    stdout := ["Switched credentials with the new profile"],
                    stderr := [], exit := .success }
        else
          { fs := fs, stdout := [],
            stderr := ["A non-profile credentials already exists. This is a destructive operation, you should import or delete it first."],
            exit := .exit1 }
      else
        match symlink_credentials fs profile_path with
        | none => { fs := fs, stdout := [], stderr := [], exit := .ioError }
        | some fs2 =>
            { fs := fs2,
              stdout := ["Switched credentials with the new profile"],
              stderr := [], exit := .success }

/-- `std::fs::rename` from the credentials path to `new_path`: fails when
the source is absent; otherwise moves the node there, replacing any
existing destination file (POSIX rename).  In the program this is only
reached when the source is not a symlink. -/
def rename_cred (fs : FS) (new_path : FsPath) : Option FS :=
  match fs.cred with
  | .absent => none
  | _ => some { cred := .absent,
                others := if fs.others.contains new_path then fs.others
                          else fs.others ++ [new_path] }

/-- `import_profile` from src/main.rs. -/
def import_profile (fs : FS) (name : String) (profiles : Registry)
    (project_directory : FsPath) : CmdOut :=
  match fs.cred with
  | .symlink link =>
      match get_profile_name_for_path link profiles with
      | some key =>
          { fs := fs, stdout := [],
            stderr := ["The profile is already imported under `" ++ key ++ "`"],
            exit := .exit1 }
      | none =>
          { fs := fs, stdout := [],
            stderr := ["The profile is an unknown symbolic link."],
            exit := .exit1 }
  | _ =>
      let new_path := project_directory ++ "/" ++ name ++ tfrcSuffix
      match rename_cred fs new_path with
      | none => { fs := fs, stdout := [], stderr := [], exit := .ioError }
      | some fs2 =>
          { fs := fs2,
            stdout := ["The terraform cloud profile was safely registered"],
            stderr := [], exit := .success }

/-- `show_profile_status` from src/main.rs. -/
def show_profile_status (fs : FS) (profiles : Registry) : CmdOut :=
  match fs.cred with
  | .symlink link =>
      match get_profile_name_for_path link profiles with
      | some key =>
          { fs := fs, stdout := [key], stderr := [], exit := .success }
      | none =>
          { fs := fs, stdout := [],
            stderr := ["No profile is currently in use."], exit := .exit1 }
  | _ =>
      { fs := fs, stdout := [],
        stderr := ["No profile is currently in use."], exit := .exit1 }

/-! ## Registry lemmas -/

theorem regGet_mem {r : Registry} {name : String} {p : FsPath}
    (h : regGet r name = some p) : (name, p) ∈ r := by
  induction r with
  | nil => simp [regGet] at h
  | cons kv rest ih =>
    obtain ⟨k, v⟩ := kv
    by_cases hk : k = name
    · subst hk
      simp [regGet] at h
      simp [h]
    · simp [regGet, hk] at h
      exact List.mem_cons_of_mem _ (ih h)

theorem regGet_of_mem {r : Registry} {n : String} {p : FsPath}
    (hnd : (r.map Prod.fst).Nodup) (hmem : (n, p) ∈ r) : regGet r n = some p := by
  induction r with
  | nil => simp at hmem
  | cons kv rest ih =>
    obtain ⟨k, v⟩ := kv
    simp only [List.map_cons, List.nodup_cons] at hnd
    rcases List.mem_cons.mp hmem with heq | hmem'
    · simp only [Prod.mk.injEq] at heq
      obtain ⟨hk, hv⟩ := heq
      subst hk; subst hv
      simp [regGet]
    · have hk : k ≠ n := by
        intro hkn
        exact hnd.1 (hkn ▸ (List.mem_map.mpr ⟨(n, p), hmem', rfl⟩))
      simp [regGet, hk]
      exact ih hnd.2 hmem'

/-- When registry values are pairwise distinct, resolving an entry's value
returns that entry's key. -/
theorem name_for_path_of_nodup {r : Registry} {n : String} {p : FsPath}
    (hnd : (r.map Prod.snd).Nodup) (hmem : (n, p) ∈ r) :
    get_profile_name_for_path p r = some n := by
  induction r with
  | nil => simp at hmem
  | cons kv rest ih =>
    obtain ⟨k, v⟩ := kv
    simp only [List.map_cons, List.nodup_cons] at hnd
    rcases List.mem_cons.mp hmem with heq | hmem'
    · simp only [Prod.mk.injEq] at heq
      obtain ⟨hk, hv⟩ := heq
      subst hk; subst hv
      simp [get_profile_name_for_path]
    · have hv : v ≠ p := by
        intro hvp
        exact hnd.1 (hvp ▸ (List.mem_map.mpr ⟨(n, p), hmem', rfl⟩))
      simp [get_profile_name_for_path, hv]
      exact ih hnd.2 hmem'


/-! ## Switch and status -/

theorem show_profile_status_symlink (S : FS) (r : Registry) (t : FsPath)
    (key : String) (hcred : S.cred = .symlink t)
    (hres : get_profile_name_for_path t r = some key) :
    show_profile_status S r
      = { fs := S, stdout := [key], stderr := [], exit := .success } := by
  simp [show_profile_status, hcred, hres]

theorem switch_profile_success_shape (fs : FS) (r : Registry) (name : String)
    (hs : (switch_profile fs r name).exit = .success) :
    ∃ path, regGet r name = some path ∧
      (switch_profile fs r name).fs.cred = .symlink path := by
  cases hreg : regGet r name with
  | none => simp [switch_profile, hreg] at hs
  | some path =>
    refine ⟨path, rfl, ?_⟩
    by_cases hex : fs.credExists = true
    · by_cases hsym : fs.credIsSymlink = true
      · cases hcred : fs.cred with
        | absent => simp [FS.credIsSymlink, hcred] at hsym
        | plainFile => simp [FS.credIsSymlink, hcred] at hsym
        | symlink t =>
          simp [switch_profile, hreg, hex, hsym, remove_file_cred, hcred,
            symlink_credentials]
      · simp [switch_profile, hreg, hex, hsym] at hs
    · cases hcred : fs.cred with
      | absent =>
        simp [switch_profile, hreg, hex, symlink_credentials, hcred]
      | plainFile => simp [FS.credExists, hcred] at hex
      | symlink t =>
        simp [switch_profile, hreg, hex, symlink_credentials, hcred] at hs

/-- C1: for a name present in the registry, a successful Switch followed by
Status (on the resulting filesystem state, with the same registry) prints
exactly that name and exits 0: the created symlink points at the profile's
registry path and `show_profile_status` resolves it back to the same key.
The registry's values are pairwise distinct, as they are for any mapping
built by `get_profiles` from distinct directory entries. -/
theorem c1_switch_then_status (fs : FS) (r : Registry) (name : String)
    (hval : (r.map Prod.snd).Nodup)
    (hs : (switch_profile fs r name).exit = .success) :
    show_profile_status (switch_profile fs r name).fs r
      = { fs := (switch_profile fs r name).fs, stdout := [name],
          stderr := [], exit := .success } := by
  obtain ⟨path, hreg, hcred⟩ := switch_profile_success_shape fs r name hs
  exact show_profile_status_symlink _ r path name hcred
    (name_for_path_of_nodup hval (regGet_mem hreg))

theorem c1_witness :
    (([("alice", "/reg/alice.tfrc.json")] : Registry).map Prod.snd).Nodup ∧
    (switch_profile ⟨.absent, []⟩ [("alice", "/reg/alice.tfrc.json")]
        "alice").exit = .success ∧
    show_profile_status
        (switch_profile ⟨.absent, []⟩ [("alice", "/reg/alice.tfrc.json")]
          "alice").fs [("alice", "/reg/alice.tfrc.json")]
      = { fs := (switch_profile ⟨.absent, []⟩
            [("alice", "/reg/alice.tfrc.json")] "alice").fs,
          stdout := ["alice"], stderr := [], exit := .success } :=
  ⟨by decide, by decide,
    c1_switch_then_status ⟨.absent, []⟩ [("alice", "/reg/alice.tfrc.json")]
      "alice" (by decide) (by decide)⟩

/-- C3 as stated is false: with the credentials path holding a symlink to a
target that does not exist (an "Unknown" state — the link is a symlink to
an untracked target), Switch does not succeed.  `Path::exists()` traverses
the dangling link and reports false, so the code takes the creation branch,
and `symlink(2)` fails with `EEXIST` on the occupied path; the `Err` is
propagated to `main` instead of the success message. -/
theorem c3_counterexample :
    switch_profile ⟨.symlink "/nowhere", ["/reg/alice.tfrc.json"]⟩
        [("alice", "/reg/alice.tfrc.json")] "alice"
      = { fs := ⟨.symlink "/nowhere", ["/reg/alice.tfrc.json"]⟩,
          stdout := [], stderr := [], exit := .ioError } := by decide

/-- C3 (amended): for every profile path present in the registry, when the
credentials path is absent, or holds a symlink whose target exists
(untracked or a registry entry), Switch succeeds: it removes the existing
link if one exists (no-op if absent) and creates a new symlink at the fixed
credentials path pointing at the requested profile's path. -/
theorem c3_amended_switch_succeeds (fs : FS) (r : Registry) (name : String)
    (path : FsPath) (hreg : regGet r name = some path)
    (hstate : fs.cred = .absent ∨
      ∃ t, fs.cred = .symlink t ∧ fs.fileAt t = true) :
    switch_profile fs r name
      = { fs := { fs with cred := .symlink path },
          stdout := ["Switched credentials with the new profile"],
          stderr := [], exit := .success } := by
  rcases hstate with habs | ⟨t, hsym, hex⟩
  · simp [switch_profile, hreg, FS.credExists, habs, symlink_credentials]
  · simp [switch_profile, hreg, FS.credExists, FS.credIsSymlink, hsym, hex,
      remove_file_cred, symlink_credentials]

theorem c3_amended_witness :
    regGet [("alice", "/reg/alice.tfrc.json"), ("bob", "/reg/bob.tfrc.json")]
        "bob" = some "/reg/bob.tfrc.json" ∧
    ((⟨.symlink "/reg/alice.tfrc.json",
        ["/reg/alice.tfrc.json", "/reg/bob.tfrc.json"]⟩ : FS).cred = .absent ∨
      ∃ t, (⟨.symlink "/reg/alice.tfrc.json",
        ["/reg/alice.tfrc.json", "/reg/bob.tfrc.json"]⟩ : FS).cred = .symlink t ∧
        (⟨.symlink "/reg/alice.tfrc.json",
          ["/reg/alice.tfrc.json", "/reg/bob.tfrc.json"]⟩ : FS).fileAt t = true) ∧
    switch_profile
        ⟨.symlink "/reg/alice.tfrc.json",
          ["/reg/alice.tfrc.json", "/reg/bob.tfrc.json"]⟩
        [("alice", "/reg/alice.tfrc.json"), ("bob", "/reg/bob.tfrc.json")] "bob"
      = { fs := ⟨.symlink "/reg/bob.tfrc.json",
            ["/reg/alice.tfrc.json", "/reg/bob.tfrc.json"]⟩,
          stdout := ["Switched credentials with the new profile"],
          stderr := [], exit := .success } :=
  ⟨by decide, Or.inr ⟨"/reg/alice.tfrc.json", by decide, by decide⟩,
    c3_amended_switch_succeeds _ _ _ _ (by decide)
      (Or.inr ⟨"/reg/alice.tfrc.json", by decide, by decide⟩)⟩

/-- C4: for every registry and every name in it, when the credentials path
holds a pre-existing plain file (not a symlink), Switch refuses with the
destructive-overwrite diagnostic on the error stream and exits 1, leaving
the plain file and all other filesystem state untouched. -/
theorem c4_switch_on_foreign_file (fs : FS) (r : Registry) (name : String)
    (path : FsPath) (hreg : regGet r name = some path)
    (hplain : fs.cred = .plainFile) :
    switch_profile fs r name
      = { fs := fs, stdout := [],
          stderr := ["A non-profile credentials already exists. This is a destructive operation, you should import or delete it first."],
          exit := .exit1 } := by
  simp [switch_profile, hreg, FS.credExists, FS.credIsSymlink, hplain]

theorem c4_witness :
    regGet [("alice", "/reg/alice.tfrc.json")] "alice"
        = some "/reg/alice.tfrc.json" ∧
    (⟨.plainFile, ["/reg/alice.tfrc.json"]⟩ : FS).cred = .plainFile ∧
    switch_profile ⟨.plainFile, ["/reg/alice.tfrc.json"]⟩
        [("alice", "/reg/alice.tfrc.json")] "alice"
      = { fs := ⟨.plainFile, ["/reg/alice.tfrc.json"]⟩, stdout := [],
          stderr := ["A non-profile credentials already exists. This is a destructive operation, you should import or delete it first."],
          exit := .exit1 } :=
  ⟨by decide, by decide,
    c4_switch_on_foreign_file _ _ _ "/reg/alice.tfrc.json" (by decide)
      (by decide)⟩

/-- C5: for every name absent from the registry mapping, Switch fails with
the unknown-profile diagnostic on the error stream and exit status 1, and
performs no filesystem operation: the state, whatever it was, is returned
unchanged. -/
theorem c5_switch_unknown_profile (fs : FS) (r : Registry) (name : String)
    (hreg : regGet r name = none) :
    switch_profile fs r name
      = { fs := fs, stdout := [],
          stderr := ["Couldn\'t find the profile to switch with."],
          exit := .exit1 } := by
  simp [switch_profile, hreg]

theorem c5_witness :
    regGet [("alice", "/reg/alice.tfrc.json")] "carol" = none ∧
    switch_profile ⟨.symlink "/reg/alice.tfrc.json", ["/reg/alice.tfrc.json"]⟩
        [("alice", "/reg/alice.tfrc.json")] "carol"
      = { fs := ⟨.symlink "/reg/alice.tfrc.json", ["/reg/alice.tfrc.json"]⟩,
          stdout := [],
          stderr := ["Couldn\'t find the profile to switch with."],
          exit := .exit1 } :=
  ⟨by decide, c5_switch_unknown_profile _ _ _ (by decide)⟩

/-! ## Import -/

/-- C6: whenever the credentials path is a symlink, Import fails with exit
status 1 — printing the already-imported diagnostic naming the matching key
when the link target equals a registry value, and the unknown-symbolic-link
diagnostic otherwise — and performs no filesystem mutation: no rename
occurs and no registry entry is created. -/
theorem c6_import_on_symlink (fs : FS) (name : String) (r : Registry)
    (project_directory : FsPath) (t : FsPath) (h : fs.cred = .symlink t) :
    import_profile fs name r project_directory
      = { fs := fs, stdout := [],
          stderr := [match get_profile_name_for_path t r with
            | some key => "The profile is already imported under `" ++ key ++ "`"
            | none => "The profile is an unknown symbolic link."],
          exit := .exit1 } := by
  cases hk : get_profile_name_for_path t r <;> simp [import_profile, h, hk]

theorem c6_witness :
    (⟨.symlink "/reg/alice.tfrc.json", ["/reg/alice.tfrc.json"]⟩ : FS).cred
        = .symlink "/reg/alice.tfrc.json" ∧
    import_profile ⟨.symlink "/reg/alice.tfrc.json", ["/reg/alice.tfrc.json"]⟩
        "fresh" [("alice", "/reg/alice.tfrc.json")] "/reg"
      = { fs := ⟨.symlink "/reg/alice.tfrc.json", ["/reg/alice.tfrc.json"]⟩,
          stdout := [],
          stderr := ["The profile is already imported under `alice`"],
          exit := .exit1 } :=
  ⟨by decide,
    Trans.trans
      (c6_import_on_symlink
        ⟨.symlink "/reg/alice.tfrc.json", ["/reg/alice.tfrc.json"]⟩ "fresh"
        [("alice", "/reg/alice.tfrc.json")] "/reg" "/reg/alice.tfrc.json"
        (by decide))
      (by decide)⟩

/-- C9: when nothing exists at the credentials path, Import has no explicit
guard for the case: it attempts the rename unconditionally, the rename
fails on the absent source, and the resulting `IoError` is propagated to
the top level; no registry entry is created and no success message is
printed. -/
theorem c9_import_on_absent (fs : FS) (name : String) (r : Registry)
    (project_directory : FsPath) (h : fs.cred = .absent) :
    import_profile fs name r project_directory
      = { fs := fs, stdout := [], stderr := [], exit := .ioError } := by
  simp [import_profile, h, rename_cred]

theorem c9_witness :
    (⟨.absent, ["/reg/alice.tfrc.json"]⟩ : FS).cred = .absent ∧
    import_profile ⟨.absent, ["/reg/alice.tfrc.json"]⟩ "fresh"
        [("alice", "/reg/alice.tfrc.json")] "/reg"
      = { fs := ⟨.absent, ["/reg/alice.tfrc.json"]⟩, stdout := [],
          stderr := [], exit := .ioError } :=
  ⟨by decide, c9_import_on_absent _ _ _ _ (by decide)⟩

/-- C10: Import never consults the registry mapping for the destination
name: when the credentials path holds a plain file, the rename to
`<name>.tfrc.json` inside the project directory is performed for EVERY
registry `r` — the right-hand side below does not depend on `r` — so
importing under a name already present in the registry goes ahead and
replaces that profile's backing file rather than being refused. -/
theorem c10_import_ignores_registry (fs : FS) (name : String) (r : Registry)
    (project_directory : FsPath) (h : fs.cred = .plainFile) :
    import_profile fs name r project_directory
      = { fs :=
            { cred := .absent,
              others :=
                if fs.others.contains
                    (project_directory ++ "/" ++ name ++ tfrcSuffix)
                then fs.others
                else fs.others
                  ++ [project_directory ++ "/" ++ name ++ tfrcSuffix] },
          stdout := ["The terraform cloud profile was safely registered"],
          stderr := [], exit := .success } := by
  simp [import_profile, h, rename_cred]

theorem c10_witness :
    (⟨.plainFile, ["/reg/alice.tfrc.json"]⟩ : FS).cred = .plainFile ∧
    import_profile ⟨.plainFile, ["/reg/alice.tfrc.json"]⟩ "alice"
        [("alice", "/reg/alice.tfrc.json")] "/reg"
      = { fs := ⟨.absent, ["/reg/alice.tfrc.json"]⟩,
          stdout := ["The terraform cloud profile was safely registered"],
          stderr := [], exit := .success } :=
  ⟨by decide,
    Trans.trans
      (c10_import_ignores_registry ⟨.plainFile, ["/reg/alice.tfrc.json"]⟩
        "alice" [("alice", "/reg/alice.tfrc.json")] "/reg" (by decide))
      (by decide)⟩

/-! ## The split_once pattern machinery -/

theorem isPrefixOf_iff_take (p : List Char) :
    ∀ s, (p.isPrefixOf s = true ↔ p = s.take p.length) := by
  induction p with
  | nil => intro s; simp [List.isPrefixOf]
  | cons a as ih =>
    intro s
    cases s with
    | nil => simp [List.isPrefixOf]
    | cons b bs =>
      simp only [List.isPrefixOf, Bool.and_eq_true, beq_iff_eq, ih bs,
        List.length_cons, List.take_succ_cons, List.cons.injEq]

theorem isPrefixOf_append_self (p t : List Char) :
    p.isPrefixOf (p ++ t) = true := by
  rw [isPrefixOf_iff_take, List.take_left]

theorem splitOnceList_cons_none {pat : List Char} {c : Char} {rest : List Char}
    (h : splitOnceList pat (c :: rest) = none) :
    pat.isPrefixOf (c :: rest) = false ∧ splitOnceList pat rest = none := by
  by_cases hp : pat.isPrefixOf (c :: rest) = true
  · simp [splitOnceList, hp] at h
  · refine ⟨Bool.eq_false_iff.mpr hp, ?_⟩
    simp only [splitOnceList, hp, if_false, Bool.false_eq_true] at h
    exact Option.map_eq_none'.mp h

theorem splitOnceList_append_pat (pat : List Char) (hne : pat ≠ [])
    (hnb : ∀ k, k < pat.length → 0 < k →
      pat.drop k ≠ pat.take (pat.length - k)) :
    ∀ xs, splitOnceList pat xs = none →
      splitOnceList pat (xs ++ pat) = some (xs, []) := by
  intro xs
  induction xs with
  | nil =>
    intro _
    cases hp : pat with
    | nil => exact absurd hp hne
    | cons c ps =>
      have h1 : (c :: ps).isPrefixOf (c :: ps) = true := by
        have h0 := isPrefixOf_append_self (c :: ps) []
        rwa [List.append_nil] at h0
      simp [splitOnceList, h1, List.drop_length, hp]
  | cons c xs ih =>
    intro h
    obtain ⟨hpre, hrest⟩ := splitOnceList_cons_none h
    have hihr := ih hrest
    rw [List.cons_append]
    by_cases hp : pat.isPrefixOf (c :: (xs ++ pat)) = true
    · exfalso
      rw [isPrefixOf_iff_take, ← List.cons_append] at hp
      rcases le_or_lt pat.length (c :: xs).length with hle | hlt
      · have htk : pat = (c :: xs).take pat.length :=
          hp.trans (List.take_append_of_le_length hle)
        have : pat.isPrefixOf (c :: xs) = true :=
          (isPrefixOf_iff_take pat (c :: xs)).mpr htk
        rw [this] at hpre
        exact Bool.true_eq_false.mp hpre
      · have h2 : pat = (c :: xs) ++ pat.take (pat.length - (c :: xs).length) := by
          calc pat = ((c :: xs) ++ pat).take pat.length := hp
            _ = (c :: xs).take pat.length
                ++ pat.take (pat.length - (c :: xs).length) :=
              List.take_append_eq_append_take ..
            _ = (c :: xs) ++ pat.take (pat.length - (c :: xs).length) := by
              rw [List.take_of_length_le (le_of_lt hlt)]
        have h3 : pat.drop (c :: xs).length
            = pat.take (pat.length - (c :: xs).length) := by
          conv_lhs => rw [h2]
          rw [List.drop_left]
        exact hnb (c :: xs).length hlt (by simp) h3
    · have hp' : pat.isPrefixOf (c :: (xs ++ pat)) = false := Bool.eq_false_iff.mpr hp
      simp [splitOnceList, hp', hihr]

theorem splitOnceStr_none_iff {s pat : String} :
    splitOnceStr s pat = none ↔ splitOnceList pat.toList s.toList = none := by
  unfold splitOnceStr
  cases h : splitOnceList pat.toList s.toList with
  | none => simp
  | some pr => obtain ⟨a, b⟩ := pr; simp

/-- The pattern `".tfrc.json"` has no nonempty proper border: no proper
suffix of it equals a proper prefix of it.  Hence an occurrence of the
pattern in `name ++ ".tfrc.json"` cannot straddle the boundary. -/
theorem tfrcSuffix_noBorder :
    ∀ k, k < tfrcSuffix.toList.length → 0 < k →
      tfrcSuffix.toList.drop k
        ≠ tfrcSuffix.toList.take (tfrcSuffix.toList.length - k) := by
  decide

theorem splitOnceStr_name_append (n : String)
    (h : splitOnceStr n tfrcSuffix = none) :
    splitOnceStr (n ++ tfrcSuffix) tfrcSuffix = some (n, "") := by
  have hl : splitOnceList tfrcSuffix.toList n.toList = none :=
    splitOnceStr_none_iff.mp h
  have hs := splitOnceList_append_pat tfrcSuffix.toList (by decide)
    tfrcSuffix_noBorder n.toList hl
  unfold splitOnceStr
  rw [show (n ++ tfrcSuffix).toList = n.toList ++ tfrcSuffix.toList from rfl, hs]
  rfl

theorem splitOnceList_first (pat : List Char) :
    ∀ s pre post, splitOnceList pat s = some (pre, post) →
      s = pre ++ pat ++ post ∧
      ∀ i, i < pre.length → pat.isPrefixOf (s.drop i) = false := by
  intro s
  induction s with
  | nil =>
    intro pre post h
    by_cases hp : pat = []
    · subst hp
      simp [splitOnceList] at h
      obtain ⟨h1, h2⟩ := h
      subst h1; subst h2
      exact ⟨rfl, by intro i hi; simp at hi⟩
    · simp [splitOnceList, hp] at h
  | cons c rest ih =>
    intro pre post h
    by_cases hp : pat.isPrefixOf (c :: rest) = true
    · simp only [splitOnceList, hp, if_true] at h
      obtain ⟨hpre, hpost⟩ := Prod.mk.injEq .. ▸ Option.some.injEq .. ▸ h
      subst hpre; subst hpost
      refine ⟨?_, by intro i hi; simp at hi⟩
      have htk := (isPrefixOf_iff_take pat (c :: rest)).mp hp
      conv_lhs => rw [← List.take_append_drop pat.length (c :: rest)]
      rw [← htk]
      simp
    · have hp' : pat.isPrefixOf (c :: rest) = false := Bool.eq_false_iff.mpr hp
      simp only [splitOnceList, hp', Bool.false_eq_true, if_false] at h
      obtain ⟨pr, hpr, heq⟩ := Option.map_eq_some'.mp h
      obtain ⟨a, b⟩ := pr
      obtain ⟨hpre, hpost⟩ := Prod.mk.injEq .. ▸ heq
      subst hpre; subst hpost
      obtain ⟨hsplit, hfirst⟩ := ih a b hpr
      refine ⟨by rw [List.cons_append, List.cons_append, ← hsplit], ?_⟩
      intro i hi
      cases i with
      | zero => simpa using hp'
      | succ j =>
        simp only [List.length_cons, Nat.succ_lt_succ_iff] at hi
        simpa using hfirst j hi

/-! ## Registry load -/

/-- C8: the profile name recorded by `get_profiles` for a registry file
name containing `".tfrc.json"` is the text preceding the FIRST occurrence
of that substring, not the last: the file name decomposes as
`pre ++ ".tfrc.json" ++ post`, no occurrence of the pattern starts before
`pre` ends, and `pre` is the key recorded for the entry. -/
theorem c8_first_occurrence (s : String) (p : FsPath) (pre post : String)
    (h : splitOnceStr s tfrcSuffix = some (pre, post)) :
    get_profiles [some ⟨some s, p⟩] = .ok [(pre, p)] ∧
    s.toList = pre.toList ++ tfrcSuffix.toList ++ post.toList ∧
    ∀ i, i < pre.toList.length →
      tfrcSuffix.toList.isPrefixOf (s.toList.drop i) = false := by
  obtain ⟨a, b, hab, hprepost⟩ :
      ∃ a b, splitOnceList tfrcSuffix.toList s.toList = some (a, b) ∧
        (pre, post) = (a.asString, b.asString) := by
    unfold splitOnceStr at h
    cases hab : splitOnceList tfrcSuffix.toList s.toList with
    | none => rw [hab] at h; exact absurd h (by simp)
    | some pr =>
      obtain ⟨a, b⟩ := pr
      rw [hab] at h
      exact ⟨a, b, rfl, (Option.some.injEq .. ▸ h).symm⟩
  obtain ⟨hpre, hpost⟩ := Prod.mk.injEq .. ▸ hprepost
  obtain ⟨hsplit, hfirst⟩ := splitOnceList_first tfrcSuffix.toList s.toList a b hab
  refine ⟨?_, ?_, ?_⟩
  · simp [get_profiles, get_profiles_go, h, insertEntry]
  · rw [hpre, hpost]
    simpa using hsplit
  · intro i hi
    rw [hpre] at hi
    simpa using hfirst i (by simpa using hi)

theorem c8_witness :
    splitOnceStr "a.tfrc.json.tfrc.json" tfrcSuffix
        = some ("a", ".tfrc.json") ∧
    (get_profiles [some ⟨some "a.tfrc.json.tfrc.json", "/reg/a.tfrc.json.tfrc.json"⟩]
        = .ok [("a", "/reg/a.tfrc.json.tfrc.json")] ∧
      "a.tfrc.json.tfrc.json".toList
        = "a".toList ++ tfrcSuffix.toList ++ ".tfrc.json".toList ∧
      ∀ i, i < "a".toList.length →
        tfrcSuffix.toList.isPrefixOf
          ("a.tfrc.json.tfrc.json".toList.drop i) = false) :=
  ⟨by decide,
    c8_first_occurrence "a.tfrc.json.tfrc.json" "/reg/a.tfrc.json.tfrc.json"
      "a" ".tfrc.json" (by decide)⟩

/-- C2 as stated is false: a directory entry whose (decodable) file name
does not contain `".tfrc.json"` is not skipped — it makes the whole load
fail.  Here a registry directory holding a stray `README.md` beside a
well-formed `alice.tfrc.json` yields `Err`, not an `Ok` mapping covering
the remaining entry. -/
theorem c2_counterexample :
    get_profiles [some ⟨some "README.md", "/reg/README.md"⟩,
        some ⟨some "alice.tfrc.json", "/reg/alice.tfrc.json"⟩]
      = .error "Couldn\'t split file name" := by rfl

theorem get_profiles_go_err (e : DirEntry) (s : String)
    (hname : e.file_name = some s)
    (hsplit : splitOnceStr s tfrcSuffix = none) :
    ∀ dir acc, some e ∈ dir → (get_profiles_go dir acc).isOk = false := by
  intro dir
  induction dir with
  | nil => intro acc hmem; simp at hmem
  | cons o rest ih =>
    intro acc hmem
    rcases List.mem_cons.mp hmem with heq | hmem'
    · subst heq
      simp [get_profiles_go, hname, hsplit, Except.isOk, Except.toBool]
    · cases o with
      | none => simpa [get_profiles_go] using ih acc hmem'
      | some e2 =>
        cases h2 : e2.file_name with
        | none => simp [get_profiles_go, h2, Except.isOk, Except.toBool]
        | some s2 =>
          cases h3 : splitOnceStr s2 tfrcSuffix with
          | none => simp [get_profiles_go, h2, h3, Except.isOk, Except.toBool]
          | some pr =>
            obtain ⟨p1, p2⟩ := pr
            simp only [get_profiles_go, h2, h3]
            exact ih _ hmem'

/-- C2 (amended): during registry load, a directory entry whose decodable
file name does not contain the substring `".tfrc.json"` is NOT skipped:
its presence anywhere in the listing makes `get_profiles` fail for the
whole load (the `.context(...)?` chain returns `Err`), regardless of how
many well-formed entries the directory also holds. -/
theorem c2_amended_load_fails (dir : List (Option DirEntry)) (e : DirEntry)
    (s : String) (hmem : some e ∈ dir) (hname : e.file_name = some s)
    (hsplit : splitOnceStr s tfrcSuffix = none) :
    (get_profiles dir).isOk = false :=
  get_profiles_go_err e s hname hsplit dir [] hmem

theorem c2_amended_witness :
    some (⟨some "README.md", "/reg/README.md"⟩ : DirEntry)
        ∈ [some (⟨some "README.md", "/reg/README.md"⟩ : DirEntry),
           some ⟨some "alice.tfrc.json", "/reg/alice.tfrc.json"⟩] ∧
    (⟨some "README.md", "/reg/README.md"⟩ : DirEntry).file_name
        = some "README.md" ∧
    splitOnceStr "README.md" tfrcSuffix = none ∧
    (get_profiles [some ⟨some "README.md", "/reg/README.md"⟩,
        some ⟨some "alice.tfrc.json", "/reg/alice.tfrc.json"⟩]).isOk = false :=
  ⟨by decide, by decide, by decide,
    c2_amended_load_fails _ ⟨some "README.md", "/reg/README.md"⟩ "README.md"
      (by decide) (by decide) (by decide)⟩

theorem insertEntry_of_not_mem {m : Registry} {k : String} {v : FsPath}
    (h : k ∉ m.map Prod.fst) : insertEntry m k v = m ++ [(k, v)] := by
  simp [insertEntry, h]

theorem get_profiles_go_clean :
    ∀ (names : List String) (paths : List FsPath) (acc : Registry),
      names.length = paths.length →
      (∀ n ∈ names, splitOnceStr n tfrcSuffix = none) →
      names.Nodup →
      (∀ n ∈ names, n ∉ acc.map Prod.fst) →
      get_profiles_go
          ((names.zip paths).map fun np =>
            some ⟨some (np.1 ++ tfrcSuffix), np.2⟩) acc
        = .ok (acc ++ names.zip paths) := by
  intro names
  induction names with
  | nil => intro paths acc _ _ _ _; simp [get_profiles_go]
  | cons n ns ih =>
    intro paths acc hlen hclean hnodup hdisj
    cases paths with
    | nil => simp at hlen
    | cons p ps =>
      have hsplit : splitOnceStr (n ++ tfrcSuffix) tfrcSuffix = some (n, "") :=
        splitOnceStr_name_append n (hclean n (by simp))
      rw [List.zip_cons_cons, List.map_cons]
      simp only [get_profiles_go, hsplit]
      rw [insertEntry_of_not_mem (hdisj n (by simp))]
      have hnodup' := List.nodup_cons.mp hnodup
      rw [ih ps (acc ++ [(n, p)]) (by simpa using hlen)
        (fun m hm => hclean m (by simp [hm])) hnodup'.2 ?_]
      · simp
      · intro m hm
        simp only [List.map_append, List.mem_append]
        rintro (hin | hin)
        · exact hdisj m (by simp [hm]) hin
        · simp at hin
          subst hin
          exact hnodup'.1 hm

/-- C7: for a registry directory whose listing consists exactly of files
named `<name>.tfrc.json` — the names pairwise distinct and none itself
containing the substring `".tfrc.json"` — `get_profiles` returns the
mapping pairing each name with the path of its backing file, so its key
set is exactly the set of those names; and `initialize_folder` guarantees
the registry directory exists after loading, creating it when absent. -/
theorem c7_registry_load (names : List String) (paths : List FsPath)
    (dirExists : Bool) (hlen : names.length = paths.length)
    (hclean : ∀ n ∈ names, splitOnceStr n tfrcSuffix = none)
    (hnodup : names.Nodup) :
    get_profiles
        ((names.zip paths).map fun np =>
          some ⟨some (np.1 ++ tfrcSuffix), np.2⟩)
      = .ok (names.zip paths)
    ∧ (names.zip paths).map Prod.fst = names
    ∧ (∀ n p2, (n, p2) ∈ names.zip paths →
        regGet (names.zip paths) n = some p2)
    ∧ (initialize_folder dirExists).1 = true := by
  refine ⟨?_, List.map_fst_zip names paths (le_of_eq hlen), ?_, ?_⟩
  · have h := get_profiles_go_clean names paths [] hlen hclean hnodup
      (by simp)
    simpa [get_profiles] using h
  · intro n p2 hmem
    refine regGet_of_mem ?_ hmem
    rw [List.map_fst_zip names paths (le_of_eq hlen)]
    exact hnodup
  · cases dirExists <;> simp [initialize_folder]

theorem c7_witness :
    (["alice", "bob"] : List String).length
        = (["/reg/alice.tfrc.json", "/reg/bob.tfrc.json"] : List FsPath).length ∧
    (∀ n ∈ (["alice", "bob"] : List String),
      splitOnceStr n tfrcSuffix = none) ∧
    (["alice", "bob"] : List String).Nodup ∧
    (get_profiles
        (((["alice", "bob"] : List String).zip
            (["/reg/alice.tfrc.json", "/reg/bob.tfrc.json"] : List FsPath)).map
          fun np => some ⟨some (np.1 ++ tfrcSuffix), np.2⟩)
      = .ok ((["alice", "bob"] : List String).zip
          (["/reg/alice.tfrc.json", "/reg/bob.tfrc.json"] : List FsPath))
    ∧ ((["alice", "bob"] : List String).zip
        (["/reg/alice.tfrc.json", "/reg/bob.tfrc.json"] : List FsPath)).map
          Prod.fst = ["alice", "bob"]
    ∧ (∀ n p2, (n, p2) ∈ (["alice", "bob"] : List String).zip
          (["/reg/alice.tfrc.json", "/reg/bob.tfrc.json"] : List FsPath) →
        regGet ((["alice", "bob"] : List String).zip
            (["/reg/alice.tfrc.json", "/reg/bob.tfrc.json"] : List FsPath)) n
          = some p2)
    ∧ (initialize_folder false).1 = true) :=
  ⟨by decide, by decide, by decide,
    c7_registry_load ["alice", "bob"]
      ["/reg/alice.tfrc.json", "/reg/bob.tfrc.json"] false (by decide)
      (by decide) (by decide)⟩
